import Mathlib

/-!
Verification of the dotconfig_handler Sync Engine.

The Go source is shallowly embedded: Go strings are lists of characters,
glob matchers are a small pattern AST with the matching semantics of
`gobwas/glob` compiled with no separator arguments, the filesystem is a
finite association list from paths to entries, and effectful per-path
operations are explicit state passing.
-/

/-- Go `string`, modelled as a list of characters. -/
abbrev GoStr := List Char

namespace ConfigHandler

/-! ## Glob patterns (gobwas/glob, compiled with no separators)

`NewManager` calls `glob.Compile(pattern)` with no separator arguments.
In that mode `*` and `**` both match any sequence of characters (the
slash-boundedness of `*` only applies when separators are passed), `?`
matches any single character, and every other character is a literal. -/

/-- One atom of a compiled glob pattern. -/
inductive GlobAtom where
  | lit (c : Char)
  | star
  | superStar
  | anyOne
deriving DecidableEq, Repr

/-- A compiled glob pattern is a sequence of atoms. -/
abbrev Glob := List GlobAtom

/-- Glob matching: `pattern.Match(s)`. With no separators configured both
`star` and `superStar` match any (possibly empty) sequence of characters:
a star atom matches iff the rest of the pattern matches some suffix. -/
def globMatch : Glob → GoStr → Bool
  | [], s => s.isEmpty
  | .lit c :: g, s =>
    match s with
    | [] => false
    | d :: s' => c == d && globMatch g s'
  | .anyOne :: g, s =>
    match s with
    | [] => false
    | _ :: s' => globMatch g s'
  | .star :: g, s => s.tails.any (fun t => globMatch g t)
  | .superStar :: g, s => s.tails.any (fun t => globMatch g t)

/-- `strings.Contains(relPath, ".git")`: the `.git` skip at the top of
`Manager.shouldInclude` is a substring test. -/
def containsDotGit (relPath : GoStr) : Bool :=
  decide (".git".data <:+: relPath)

/-- `Manager.shouldInclude`: skip anything containing `.git`, then exclude
patterns (exclude takes precedence), then require an include match when
include patterns exist, else include by default. -/
def shouldInclude (includeGlobs excludeGlobs : List Glob) (relPath : GoStr) : Bool :=
  if containsDotGit relPath then false
  else if excludeGlobs.any (fun p => globMatch p relPath) then false
  else if 0 < includeGlobs.length then includeGlobs.any (fun p => globMatch p relPath)
  else true

/-- The compiled form of the configuration pattern `"**/*.tmp"`:
super-star, a literal slash, star, then the literal characters `.tmp`. -/
def tmpExcludeGlob : Glob :=
  [.superStar, .lit '/', .star, .lit '.', .lit 't', .lit 'm', .lit 'p']

/-- Split a character list at every occurrence of a separator character. -/
def splitChar (sep : Char) : GoStr → List GoStr
  | [] => [[]]
  | c :: rest =>
    if c = sep then [] :: splitChar sep rest
    else
      match splitChar sep rest with
      | [] => [[c]]
      | h :: t => (c :: h) :: t

/-- The spec's notion of "a VCS metadata segment": some slash-separated
segment of the relative path equals `.git` exactly. -/
def hasDotGitSegment (relPath : GoStr) : Bool :=
  (splitChar '/' relPath).any (fun seg => seg == ".git".data)

/-! ## Conflict resolution (git.go)

`ConflictResolver.ResolveConflict` with the `Merge` strategy reads the
conflicted file, prepends a fixed header and writes the result back with
`os.WriteFile(fullPath, data, 0644)`. A file on disk is modelled as content
plus permission bits. -/

/-- A file on disk: content and permission bits. -/
structure GoFile where
  content : GoStr
  mode : Nat
deriving DecidableEq, Repr

/-- Go `os.WriteFile(path, data, perm)`: creates the file with permission
`perm` when it does not exist; otherwise truncates and rewrites it without
changing its permission bits. -/
def writeFile (old : Option GoFile) (data : GoStr) (perm : Nat) : GoFile :=
  match old with
  | some f => { content := data, mode := f.mode }
  | none => { content := data, mode := perm }

/-- The header the `Merge` branch prepends:
`"# MERGED FILE\n# Contains both versions due to conflict\n\n"`. -/
def mergeHeader : GoStr :=
  "# MERGED FILE\n# Contains both versions due to conflict\n\n".data

/-- The `Merge` branch of `ConflictResolver.ResolveConflict`: read the
conflicted file (failing when it is absent), prepend `mergeHeader`, and
write the result back with permission argument `0644`. -/
def resolveConflictMerge (file : Option GoFile) : Option GoFile :=
  match file with
  | none => none
  | some f => some (writeFile (some f) (mergeHeader ++ f.content) 0o644)

/-- `true` on `Except.ok`. -/
def isOk (r : Except GoStr Unit) : Bool :=
  match r with
  | .ok _ => true
  | .error _ => false

/-- The error-wrapping `ResolveAllConflicts` applies:
`fmt.Errorf("failed to resolve conflict for %s: %w", path, err)`. -/
def wrapResolveErr (path e : GoStr) : GoStr :=
  "failed to resolve conflict for ".data ++ path ++ ": ".data ++ e

/-- `ConflictResolver.ResolveAllConflicts` modelled over an abstract
per-path resolver `resolve` (the effectful `ResolveConflict` call): it
loops over the conflict paths and `return`s the wrapped error of the first
failing path. The first component records which paths were attempted. -/
def resolveAllConflicts (resolve : GoStr → Except GoStr Unit) :
    List GoStr → List GoStr × Except GoStr Unit
  | [] => ([], .ok ())
  | p :: ps =>
    match resolve p with
    | .error e => ([p], .error (wrapResolveErr p e))
    | .ok _ =>
      let rest := resolveAllConflicts resolve ps
      (p :: rest.1, rest.2)

/-! ## The watcher loop (Manager.watcherLoop)

`watcherLoop` owns `debounceEvents`, a Go map from absolute event path to
the time of the last qualifying event, modelled as an association list with
at most one binding per key. Time is in milliseconds; the quiet window
`1*time.Second` is 1000. -/

/-- The fsnotify operation bits the loop distinguishes. -/
inductive FsOp where
  | write
  | create
  | remove
  | rename
  | chmod
deriving DecidableEq, Repr

/-- `event.Op & (fsnotify.Write|Create|Remove|Rename) != 0`. -/
def qualifies : FsOp → Bool
  | .chmod => false
  | _ => true

/-- Model of `filepath.Rel(dir, name)` for names lexically below `dir`:
strip the leading `dir ++ "/"`. Names outside the watched root are not
modelled and yield `none` (the loop skips them). -/
def goRel (dir name : GoStr) : Option GoStr :=
  if (dir ++ ['/']) <+: name then some (name.drop (dir.length + 1)) else none

/-- Go map update `m[k] = v`: replace the binding for `k`, or append one. -/
def setAssoc (k : GoStr) (v : Nat) : List (GoStr × Nat) → List (GoStr × Nat)
  | [] => [(k, v)]
  | e :: rest => if e.1 = k then (k, v) :: rest else e :: setAssoc k v rest

/-- Number of bindings an association list holds for the key `k`. -/
def countKey (k : GoStr) (st : List (GoStr × Nat)) : Nat :=
  (st.filter (fun e => e.1 = k)).length

/-- Number of occurrences of a path in an emitted batch. -/
def countPath (rel : GoStr) (batch : List GoStr) : Nat :=
  (batch.filter (fun x => x = rel)).length

/-- One `Events`-channel iteration of `watcherLoop` at time `now`: compute
the relative path, drop filtered-out paths, and on a qualifying operation
record `now` as the path's last event time. (The `Create`-branch watch
registration does not touch `debounceEvents`.) -/
def handleEvent (configDir : GoStr) (inc exc : List Glob)
    (st : List (GoStr × Nat)) (name : GoStr) (op : FsOp) (now : Nat) :
    List (GoStr × Nat) :=
  match goRel configDir name with
  | none => st
  | some rel =>
    if shouldInclude inc exc rel then
      if qualifies op then setAssoc name now st else st
    else st

/-- One `syncTicker` iteration of `watcherLoop` at time `now`: entries whose
last event is strictly older than 1000 ms are deleted from the pending map
and their relative paths collected into the emitted `filesToSync` set
(duplicate-free); younger entries stay pending. Returns
(remaining pending map, emitted batch). -/
def tickFlush (configDir : GoStr) (st : List (GoStr × Nat)) (now : Nat) :
    List (GoStr × Nat) × List GoStr :=
  match st with
  | [] => ([], [])
  | (name, t) :: rest =>
    let r := tickFlush configDir rest now
    if 1000 < now - t then
      match goRel configDir name with
      | some rel => (r.1, if rel ∈ r.2 then r.2 else rel :: r.2)
      | none => (r.1, r.2)
    else ((name, t) :: r.1, r.2)

/-! ## Commit messages (buildCommitMessage)

`syncChangedFiles` accumulates, per operation kind, a summary string of the
form `"p1, p2, ..., pn, "`. `buildCommitMessage` trims the trailing
separator, splits the string back on `", "`, caps each kind at 3 listed
paths and joins the kinds with `"; "`. -/

/-- Go `strings.Split(s, ", ")`, specialised to the separator used by
`buildCommitMessage`: split at every (leftmost-first) occurrence of the
two-character separator. -/
def splitCommaSpace : GoStr → List GoStr
  | [] => [[]]
  | [c] => [[c]]
  | c :: d :: rest =>
    if c = ',' ∧ d = ' ' then
      [] :: splitCommaSpace rest
    else
      match splitCommaSpace (d :: rest) with
      | [] => [[c]]
      | h :: t => (c :: h) :: t

/-- Go `strings.TrimSuffix(s, ", ")`. -/
def trimSuffixCommaSpace (s : GoStr) : GoStr :=
  if [',', ' '] <:+ s then s.take (s.length - 2) else s

/-- Go `strings.Join(xs, ", ")`. -/
def joinCommaSpace : List GoStr → GoStr
  | [] => []
  | [x] => x
  | x :: xs => x ++ [',', ' '] ++ joinCommaSpace xs

/-- Go `strings.Join(xs, "; ")`. -/
def joinSemiSpace : List GoStr → GoStr
  | [] => []
  | [x] => x
  | x :: xs => x ++ [';', ' '] ++ joinSemiSpace xs

/-- Decimal rendering of a natural number (Go `fmt.Sprintf("%d", n)`). -/
def natStr (n : Nat) : GoStr :=
  (Nat.repr n).data

/-- The per-kind summary string as `syncChangedFiles` accumulates it:
every path followed by `", "`. -/
def summaryString (paths : List GoStr) : GoStr :=
  (paths.map (fun p => p ++ [',', ' '])).flatten

/-- The per-kind body of `buildCommitMessage`'s loop: trim the trailing
`", "`, split the summary string back on `", "`, and when more than 3
entries result keep the first 3 and append `" and N more"`. -/
def commitFilesText (files : GoStr) : GoStr :=
  let files' := trimSuffixCommaSpace files
  let fileList := splitCommaSpace files'
  if 3 < fileList.length then
    joinCommaSpace (fileList.take 3) ++ " and ".data ++
      natStr (fileList.length - 3) ++ " more".data
  else files'

/-- One iteration of `buildCommitMessage`'s loop: kinds with an empty
summary string contribute nothing. -/
def commitStep (parts : List GoStr) (kv : GoStr × GoStr) : List GoStr :=
  if kv.2 ≠ [] then parts ++ [kv.1 ++ ": ".data ++ commitFilesText kv.2] else parts

/-- `buildCommitMessage(changes, totalChanges)`; the Go map is modelled as
an association list in iteration order. Kind groups are joined with
`"; "`; when no kind contributed, a generic count-based message is
produced. -/
def buildCommitMessage (changes : List (GoStr × GoStr)) (totalChanges : Nat) : GoStr :=
  let parts := changes.foldl commitStep []
  if 0 < parts.length then
    "Configuration update: ".data ++ joinSemiSpace parts
  else
    "Updated configuration files: ".data ++ natStr totalChanges ++ " files changed".data

/-- Modelled from the spec's words (the target of the refinement): the
group a kind with its path list contributes — up to 3 paths literally,
with `" and N more"` exactly when the kind has more than 3 paths. -/
def specPart (kv : GoStr × List GoStr) : GoStr :=
  kv.1 ++ ": ".data ++
    (if 3 < kv.2.length then
      joinCommaSpace (kv.2.take 3) ++ " and ".data ++
        natStr (kv.2.length - 3) ++ " more".data
    else joinCommaSpace kv.2)

/-- Modelled from the spec's words, for the refinement statement: group
the changed paths by kind, keep the non-empty kinds, join the kind groups
with `"; "`; with no classified paths produce the generic count-based
message. -/
def commitMessageSpec (changes : List (GoStr × List GoStr)) (totalChanges : Nat) : GoStr :=
  let parts := (changes.filter (fun kv => kv.2 ≠ [])).map specPart
  if parts ≠ [] then
    "Configuration update: ".data ++ joinSemiSpace parts
  else
    "Updated configuration files: ".data ++ natStr totalChanges ++ " files changed".data

/-! ## Filesystem model (Reconciler)

Both the source tree and the mirror (repo) tree are finite maps from
slash-separated relative paths — represented as segment lists — to entries. -/

/-- A relative path, as its slash-separated segments. -/
abbrev FPath := List GoStr

/-- A filesystem entry. -/
inductive FsEntry where
  | dir (mode : Nat)
  | file (content : GoStr) (mode : Nat)
deriving DecidableEq, Repr

/-- A directory tree: a finite map from relative paths to entries. -/
abbrev Fs := List (FPath × FsEntry)

/-- `os.Stat`: look a path up. -/
def lookupFs (fs : Fs) (p : FPath) : Option FsEntry :=
  match fs with
  | [] => none
  | e :: rest => if e.1 = p then some e.2 else lookupFs rest p

/-- Create or replace the entry at `p`. -/
def setFs (fs : Fs) (p : FPath) (v : FsEntry) : Fs :=
  match fs with
  | [] => [(p, v)]
  | e :: rest => if e.1 = p then (p, v) :: rest else e :: setFs rest p v

/-- `os.Remove` of a file: drop the entry at `p`. -/
def removeFs (fs : Fs) (p : FPath) : Fs :=
  fs.filter (fun e => e.1 ≠ p)

/-- `removeDirectory`: recursively drop the whole subtree rooted at `p`. -/
def removeTreeFs (fs : Fs) (p : FPath) : Fs :=
  fs.filter (fun e => ¬ p <+: e.1)

/-- The proper-and-improper ancestors of a path, shortest first. -/
def pathInits (p : FPath) : List FPath :=
  (List.range p.length).map (fun i => p.take (i + 1))

/-- One component step of `MkdirAll`: create directory `q` when missing. -/
def mkdirStep (mode : Nat) (fs : Fs) (q : FPath) : Fs :=
  match lookupFs fs q with
  | some _ => fs
  | none => setFs fs q (.dir mode)

/-- Go `os.MkdirAll(path, mode)`: create every missing directory along the
path, each with permission `mode`; existing entries are untouched. -/
def mkdirAll (fs : Fs) (p : FPath) (mode : Nat) : Fs :=
  (pathInits p).foldl (mkdirStep mode) fs

/-- Join path segments with slashes (the `relPath` string). -/
def joinPath (p : FPath) : GoStr :=
  List.intercalate ['/'] p

/-! ## syncChangedFiles (Manager.syncChangedFiles) -/

/-- The evolving state of one `syncChangedFiles` batch: the mirror tree and
the `fileChanges` lists (directory entries carry the `"dir: "` prefix the
code adds for display). -/
structure ChangeState where
  mirror : Fs
  added : List GoStr
  modified : List GoStr
  deleted : List GoStr
deriving DecidableEq, Repr

/-- One iteration of the `syncChangedFiles` loop for the changed relative
path `rel`. Source absent: delete the mirror file or subtree and classify
as deleted. Source a directory: `MkdirAll` the mirror path with the
source's mode, then (as in the code) stat the target — only a path still
absent after `MkdirAll` would be classified as added. Source a file:
ensure the parent directory, classify by whether the mirror file existed,
then copy content and mode. -/
def processChangedPath (source : Fs) (st : ChangeState) (rel : FPath) : ChangeState :=
  match lookupFs source rel with
  | none =>
    match lookupFs st.mirror rel with
    | some (.dir _) =>
      { st with mirror := removeTreeFs st.mirror rel,
                deleted := st.deleted ++ ["dir: ".data ++ joinPath rel] }
    | some (.file _ _) =>
      { st with mirror := removeFs st.mirror rel,
                deleted := st.deleted ++ [joinPath rel] }
    | none => st
  | some (.dir mode) =>
    let m' := mkdirAll st.mirror rel mode
    if lookupFs m' rel = none then
      { st with mirror := m',
                added := st.added ++ ["dir: ".data ++ joinPath rel] }
    else { st with mirror := m' }
  | some (.file content mode) =>
    let m' := mkdirAll st.mirror rel.dropLast 0o755
    if lookupFs m' rel = none then
      { st with mirror := setFs m' rel (.file content mode),
                added := st.added ++ [joinPath rel] }
    else
      { st with mirror := setFs m' rel (.file content mode),
                modified := st.modified ++ [joinPath rel] }

/-- `Manager.syncChangedFiles`: process every changed path of the batch. -/
def syncChangedFiles (source : Fs) (mirror : Fs) (changed : List FPath) : ChangeState :=
  changed.foldl (processChangedPath source)
    { mirror := mirror, added := [], modified := [], deleted := [] }

/-! ## InitialSync (Manager.InitialSync) -/

/-- A source tree entry as `filepath.Walk` sees it: a file, or a directory
with its children in walk order. -/
inductive STree where
  | file (name : GoStr) (content : GoStr) (mode : Nat)
  | dir (name : GoStr) (mode : Nat) (children : List STree)
deriving Repr

mutual
/-- The in-scope entries `filepath.Walk` hands to the `InitialSync`
callback below `base`, after the `shouldInclude` check and its `SkipDir`
pruning: an excluded directory's subtree is never visited. -/
def visitNode (inc exc : List Glob) (base : FPath) : STree → List (FPath × FsEntry)
  | .file name content mode =>
    if shouldInclude inc exc (joinPath (base ++ [name])) then
      [(base ++ [name], .file content mode)]
    else []
  | .dir name mode children =>
    if shouldInclude inc exc (joinPath (base ++ [name])) then
      (base ++ [name], FsEntry.dir mode) :: visitForest inc exc (base ++ [name]) children
    else []

/-- The visited entries of a list of sibling trees, in order. -/
def visitForest (inc exc : List Glob) (base : FPath) : List STree → List (FPath × FsEntry)
  | [] => []
  | t :: ts => visitNode inc exc base t ++ visitForest inc exc base ts
end

/-- The running state of one `InitialSync` walk: the mirror tree, the
`fileCount`/`dirCount` counters and the reported added entries. -/
structure InitState where
  mirror : Fs
  fileCount : Nat
  dirCount : Nat
  addedFiles : List GoStr
  addedDirs : List GoStr
deriving DecidableEq, Repr

/-- The `InitialSync` walk callback for one visited in-scope entry. A
directory is created (`MkdirAll`, ancestors then the target, with the
source's mode) only when the mirror path is missing, and only then counted
and reported. A file is always copied — parent directories ensured, content
and mode copied — and always counted and reported as added. -/
def initialSyncStep (st : InitState) (e : FPath × FsEntry) : InitState :=
  match e.2 with
  | .dir mode =>
    match lookupFs st.mirror e.1 with
    | some _ => st
    | none =>
      { st with mirror := mkdirAll st.mirror e.1 mode,
                dirCount := st.dirCount + 1,
                addedDirs := st.addedDirs ++ ["dir: ".data ++ joinPath e.1] }
  | .file content mode =>
    { st with mirror := setFs (mkdirAll st.mirror e.1.dropLast 0o755) e.1 (.file content mode),
              fileCount := st.fileCount + 1,
              addedFiles := st.addedFiles ++ [joinPath e.1] }

/-- Run the walk callback over a visit list. -/
def initialSyncRun (mirror : Fs) (visits : List (FPath × FsEntry)) : InitState :=
  visits.foldl initialSyncStep
    { mirror := mirror, fileCount := 0, dirCount := 0, addedFiles := [], addedDirs := [] }

/-- `Manager.InitialSync`, restricted to its reconciliation effect: walk
the source tree (the root itself is skipped), filter, and process every
visited entry. -/
def initialSync (inc exc : List Glob) (mirror : Fs) (rootChildren : List STree) : InitState :=
  initialSyncRun mirror (visitForest inc exc [] rootChildren)

/-- The report a visited entry contributes to the file summary: files
report their joined relative path, directories go through the directory
counters instead. -/
def fileReport (pe : FPath × FsEntry) : Option GoStr :=
  match pe.2 with
  | .file _ _ => some (joinPath pe.1)
  | .dir _ => none

/-! ## Theorems: the Path Filter (C1, C4, C9) -/

/-- C1: for every compiled include and exclude glob set and every relative
path, a path matching at least one include pattern and at least one exclude
pattern is excluded — `shouldInclude` returns `false`. -/
theorem shouldInclude_exclude_precedence (inc exc : List Glob) (p : GoStr)
    (_hinc : ∃ g ∈ inc, globMatch g p = true)
    (hexc : ∃ g ∈ exc, globMatch g p = true) :
    shouldInclude inc exc p = false := by
  obtain ⟨g, hg, hm⟩ := hexc
  have hany : exc.any (fun q => globMatch q p) = true :=
    List.any_eq_true.mpr ⟨g, hg, hm⟩
  unfold shouldInclude
  simp [hany]

/-- C1 witness: a concrete rule set whose include and exclude pattern both
match the path; the path is excluded. -/
theorem shouldInclude_exclude_precedence_witness :
    shouldInclude [[GlobAtom.lit 'a']] [[GlobAtom.lit 'a']] ['a'] = false :=
  shouldInclude_exclude_precedence _ _ _
    ⟨[GlobAtom.lit 'a'], by decide, by decide⟩
    ⟨[GlobAtom.lit 'a'], by decide, by decide⟩

/-- C4 counterexample: with include empty and exclude `["**/*.tmp"]`, the
top-level path `scratch.tmp` is NOT excluded: the compiled pattern demands
a literal slash, which `scratch.tmp` does not contain, so `shouldInclude`
returns `true` where the claim expects `false`. -/
theorem shouldInclude_tmp_counterexample :
    shouldInclude [] [tmpExcludeGlob] "scratch.tmp".data = true := by decide

/-- C4 amended: with include empty and exclude `["**/*.tmp"]`, `notes.txt`
is included; the top-level `scratch.tmp` is also included (the pattern only
matches paths with a directory component), while a nested `.tmp` file such
as `cache/scratch.tmp` is excluded. -/
theorem shouldInclude_tmp_amended :
    shouldInclude [] [tmpExcludeGlob] "notes.txt".data = true ∧
    shouldInclude [] [tmpExcludeGlob] "scratch.tmp".data = true ∧
    shouldInclude [] [tmpExcludeGlob] "cache/scratch.tmp".data = false := by decide

/-- C9 counterexample: `.gitignore` has no `.git` path segment and matches
no exclude pattern (the exclude set is empty), yet `shouldInclude` rejects
it — the VCS rejection is a substring test, not a segment test. -/
theorem shouldInclude_empty_include_counterexample :
    hasDotGitSegment ".gitignore".data = false ∧
    shouldInclude [] [] ".gitignore".data = false := by decide

/-- C9 amended: with an empty include set, `shouldInclude` returns `true`
iff the path does not contain `.git` as a substring and matches no exclude
pattern. -/
theorem shouldInclude_empty_include_iff (exc : List Glob) (p : GoStr) :
    shouldInclude [] exc p = true ↔
      containsDotGit p = false ∧ ∀ g ∈ exc, globMatch g p = false := by
  have key : shouldInclude [] exc p
      = (!containsDotGit p && !(exc.any (fun g => globMatch g p))) := by
    cases hc : containsDotGit p <;>
      cases ha : exc.any (fun g => globMatch g p) <;>
        simp [shouldInclude, hc, ha]
  rw [key]
  simp [List.any_eq_false]

/-! ## Theorems: conflict resolution (C6, C10, C7) -/

/-- C6: under the merge-both strategy the resolved content is the fixed
header followed by the conflicted content verbatim; in particular the
original content is a contiguous substring of the result. -/
theorem resolveConflictMerge_lossless (c : GoStr) (m : Nat) :
    ∃ f', resolveConflictMerge (some ⟨c, m⟩) = some f' ∧
      f'.content = mergeHeader ++ c ∧ c <:+: f'.content :=
  ⟨⟨mergeHeader ++ c, m⟩, rfl, rfl, ⟨mergeHeader, [], by simp⟩⟩

/-- C10 counterexample: a conflicted file with permission bits `0600`
keeps them after merge-both resolution — the `0644` passed to
`os.WriteFile` applies only at creation, and the file always exists (it
was just read). -/
theorem resolveConflictMerge_mode_counterexample :
    Option.map GoFile.mode (resolveConflictMerge (some ⟨['x'], 0o600⟩)) = some 0o600 ∧
    (0o600 : Nat) ≠ 0o644 := by decide

/-- C10 amended: merge-both resolution preserves the conflicted file's
prior permission bits (the `0644` argument would only apply to a newly
created file, which cannot occur since the file is read first). -/
theorem resolveConflictMerge_preserves_mode (c : GoStr) (m : Nat) :
    resolveConflictMerge (some ⟨c, m⟩) = some ⟨mergeHeader ++ c, m⟩ := rfl

/-- C7 counterexample: with two conflicting paths and a resolver failing on
the first, `ResolveAllConflicts` attempts only the first path — the second
is never attempted, and the caller receives the single wrapped error rather
than a collection of per-path errors. -/
theorem resolveAllConflicts_counterexample :
    (resolveAllConflicts
        (fun p => if p = ['a'] then Except.error ['e'] else Except.ok ())
        [['a'], ['b']]).1 = [['a']] ∧
    ([['a']] : List GoStr) ≠ [['a'], ['b']] ∧
    (resolveAllConflicts
        (fun p => if p = ['a'] then Except.error ['e'] else Except.ok ())
        [['a'], ['b']]).2 = Except.error (wrapResolveErr ['a'] ['e']) :=
  ⟨rfl, by decide, rfl⟩

/-- C7 amended: `ResolveAllConflicts` stops at the first failing path: it
attempts exactly the leading successful paths plus the first failing one,
and it succeeds overall iff every path resolves. -/
theorem resolveAllConflicts_stops_at_first_error
    (resolve : GoStr → Except GoStr Unit) (ps : List GoStr) :
    (resolveAllConflicts resolve ps).1 =
      ps.takeWhile (fun p => isOk (resolve p)) ++
        (ps.dropWhile (fun p => isOk (resolve p))).take 1 ∧
    ((resolveAllConflicts resolve ps).2 = Except.ok () ↔
      ∀ p ∈ ps, isOk (resolve p) = true) := by
  induction ps with
  | nil => simp [resolveAllConflicts]
  | cons p ps ih =>
    cases hr : resolve p with
    | error e =>
      simp [resolveAllConflicts, hr, List.takeWhile_cons, List.dropWhile_cons, isOk]
    | ok u =>
      cases u
      simp [resolveAllConflicts, hr, List.takeWhile_cons, List.dropWhile_cons, isOk,
        ih.1, ih.2]

/-! ## Theorems: syncChangedFiles directory classification (C3) -/

/-- C3: on a batch holding one path that is a directory in the source and
absent from the mirror, the mirror directory is created with the source's
mode, yet nothing is classified as added — the existence check runs only
after `MkdirAll`, so it can never see the directory as missing. -/
theorem syncChangedFiles_new_dir_not_classified :
    lookupFs (syncChangedFiles [([['d']], .dir 0o755)] [] [[['d']]]).mirror [['d']]
        = some (.dir 0o755) ∧
    (syncChangedFiles [([['d']], .dir 0o755)] [] [[['d']]]).added = [] ∧
    (syncChangedFiles [([['d']], .dir 0o755)] [] [[['d']]]).modified = [] ∧
    (syncChangedFiles [([['d']], .dir 0o755)] [] [[['d']]]).deleted = [] := by decide

/-! ## Theorems: InitialSync idempotence (C2) -/

/-- C2 counterexample: for a source tree holding a single in-scope file,
the second `InitialSync` run reports that file as added again — the second
change summary is not empty. -/
theorem initialSync_second_run_counterexample :
    (initialSync [] [] (initialSync [] [] [] [STree.file ['a'] ['x'] 0o644]).mirror
        [STree.file ['a'] ['x'] 0o644]).addedFiles = [['a']] ∧
    (initialSync [] [] (initialSync [] [] [] [STree.file ['a'] ['x'] 0o644]).mirror
        [STree.file ['a'] ['x'] 0o644]).fileCount = 1 := by decide

/-- Looking up after `setFs`: the written path reads back the new value,
every other path is untouched. -/
theorem lookupFs_setFs (fs : Fs) (q : FPath) (v : FsEntry) (p : FPath) :
    lookupFs (setFs fs q v) p = if q = p then some v else lookupFs fs p := by
  induction fs with
  | nil =>
    by_cases hq : q = p <;> simp [setFs, lookupFs, hq]
  | cons e rest ih =>
    by_cases he : e.1 = q
    · by_cases hq : q = p
      · simp [setFs, he, lookupFs, hq]
      · have hep : ¬ e.1 = p := by rw [he]; exact hq
        simp [setFs, he, lookupFs, hq, hep]
    · by_cases hep : e.1 = p
      · have hq : ¬ q = p := fun h => he (hep.trans h.symm)
        have hpq : ¬ p = q := fun h => hq h.symm
        simp [setFs, he, lookupFs, hep, hq, hpq]
      · simp [setFs, he, lookupFs, hep, ih]

/-- `setFs` never removes an existing path. -/
theorem lookupFs_setFs_isSome (fs : Fs) (q : FPath) (v : FsEntry) (p : FPath)
    (h : (lookupFs fs p).isSome) : (lookupFs (setFs fs q v) p).isSome := by
  rw [lookupFs_setFs]
  by_cases hq : q = p <;> simp [hq, h]

/-- A fold of `mkdirStep` never removes an existing path. -/
theorem foldl_mkdirStep_isSome (l : List FPath) (m : Nat) (p : FPath) :
    ∀ fs : Fs, (lookupFs fs p).isSome →
      (lookupFs (l.foldl (mkdirStep m) fs) p).isSome := by
  induction l with
  | nil => intro fs h; exact h
  | cons q rest ih =>
    intro fs h
    rw [List.foldl_cons]
    refine ih _ ?_
    unfold mkdirStep
    cases hl : lookupFs fs q with
    | some e => exact h
    | none => exact lookupFs_setFs_isSome _ _ _ _ h

/-- After a fold of `mkdirStep` every folded path exists. -/
theorem foldl_mkdirStep_mem_isSome (l : List FPath) (m : Nat) (p : FPath) (h : p ∈ l) :
    ∀ fs : Fs, (lookupFs (l.foldl (mkdirStep m) fs) p).isSome := by
  induction l with
  | nil => cases h
  | cons q rest ih =>
    intro fs
    rw [List.foldl_cons]
    rcases List.mem_cons.mp h with rfl | hmem
    · apply foldl_mkdirStep_isSome
      unfold mkdirStep
      cases hl : lookupFs fs p with
      | some e => simp [hl]
      | none => rw [lookupFs_setFs]; simp
    · exact ih hmem _

/-- A nonempty path is among its own `pathInits`. -/
theorem mem_pathInits_self (p : FPath) (h : p ≠ []) : p ∈ pathInits p := by
  have hlen : 0 < p.length := List.length_pos.mpr h
  unfold pathInits
  refine List.mem_map.mpr ⟨p.length - 1, List.mem_range.mpr (by omega), ?_⟩
  have hi : p.length - 1 + 1 = p.length := by omega
  rw [hi, List.take_length]

/-- `mkdirAll` creates its (nonempty) target path. -/
theorem lookupFs_mkdirAll_self (fs : Fs) (p : FPath) (m : Nat) (h : p ≠ []) :
    (lookupFs (mkdirAll fs p m) p).isSome :=
  foldl_mkdirStep_mem_isSome (pathInits p) m p (mem_pathInits_self p h) fs

/-- `mkdirAll` never removes an existing path. -/
theorem lookupFs_mkdirAll_isSome (fs : Fs) (q : FPath) (m : Nat) (p : FPath)
    (h : (lookupFs fs p).isSome) : (lookupFs (mkdirAll fs q m) p).isSome :=
  foldl_mkdirStep_isSome (pathInits q) m p fs h

/-- One `InitialSync` walk step never removes a mirror path. -/
theorem initialSyncStep_mono (st : InitState) (e : FPath × FsEntry) (p : FPath)
    (h : (lookupFs st.mirror p).isSome) :
    (lookupFs (initialSyncStep st e).mirror p).isSome := by
  obtain ⟨q, ent⟩ := e
  cases ent with
  | dir mode =>
    cases hl : lookupFs st.mirror q with
    | some v => simpa [initialSyncStep, hl] using h
    | none => simpa [initialSyncStep, hl] using lookupFs_mkdirAll_isSome st.mirror q mode p h
  | file content mode =>
    simpa [initialSyncStep] using
      lookupFs_setFs_isSome _ _ _ _ (lookupFs_mkdirAll_isSome _ _ _ _ h)

/-- An `InitialSync` run never removes a mirror path. -/
theorem initialSyncRun_mono (visits : List (FPath × FsEntry)) (p : FPath) :
    ∀ st : InitState, (lookupFs st.mirror p).isSome →
      (lookupFs (visits.foldl initialSyncStep st).mirror p).isSome := by
  induction visits with
  | nil => intro st h; exact h
  | cons e rest ih =>
    intro st h
    rw [List.foldl_cons]
    exact ih _ (initialSyncStep_mono _ _ _ h)

/-- After an `InitialSync` run every visited path (each has a nonempty
relative path) exists in the mirror. -/
theorem initialSyncRun_covers (visits : List (FPath × FsEntry))
    (hne : ∀ pe ∈ visits, pe.1 ≠ []) :
    ∀ st : InitState, ∀ pe ∈ visits,
      (lookupFs (visits.foldl initialSyncStep st).mirror pe.1).isSome := by
  induction visits with
  | nil => intro st pe hpe; cases hpe
  | cons e rest ih =>
    intro st pe hpe
    rw [List.foldl_cons]
    rcases List.mem_cons.mp hpe with rfl | hmem
    · apply initialSyncRun_mono
      obtain ⟨q, ent⟩ := pe
      have hq : q ≠ [] := hne _ (List.mem_cons_self _ _)
      cases ent with
      | dir mode =>
        cases hl : lookupFs st.mirror q with
        | some v => simp [initialSyncStep, hl]
        | none => simpa [initialSyncStep, hl] using lookupFs_mkdirAll_self st.mirror q mode hq
      | file content mode =>
        simp [initialSyncStep, lookupFs_setFs]
    · exact ih (fun x hx => hne x (List.mem_cons_of_mem _ hx)) _ pe hmem

/-- The file reports of an `InitialSync` run depend only on the visit
list: every visited file is reported as added, unconditionally. -/
theorem initialSyncRun_addedFiles (visits : List (FPath × FsEntry)) :
    ∀ st : InitState, (visits.foldl initialSyncStep st).addedFiles
      = st.addedFiles ++ visits.filterMap fileReport := by
  induction visits with
  | nil => intro st; simp
  | cons e rest ih =>
    intro st
    rw [List.foldl_cons, ih]
    obtain ⟨q, ent⟩ := e
    cases ent with
    | dir mode =>
      cases hl : lookupFs st.mirror q with
      | some v => simp [initialSyncStep, hl, List.filterMap_cons, fileReport]
      | none => simp [initialSyncStep, hl, List.filterMap_cons, fileReport]
    | file content mode =>
      simp [initialSyncStep, List.filterMap_cons, fileReport]

/-- The file counter of an `InitialSync` run likewise depends only on the
visit list. -/
theorem initialSyncRun_fileCount (visits : List (FPath × FsEntry)) :
    ∀ st : InitState, (visits.foldl initialSyncStep st).fileCount
      = st.fileCount + (visits.filterMap fileReport).length := by
  induction visits with
  | nil => intro st; simp
  | cons e rest ih =>
    intro st
    rw [List.foldl_cons, ih]
    obtain ⟨q, ent⟩ := e
    cases ent with
    | dir mode =>
      cases hl : lookupFs st.mirror q with
      | some v => simp [initialSyncStep, hl, List.filterMap_cons, fileReport]
      | none => simp [initialSyncStep, hl, List.filterMap_cons, fileReport]
    | file content mode =>
      simp [initialSyncStep, List.filterMap_cons, fileReport]
      omega

/-- When every visited path already exists in the mirror, an `InitialSync`
run creates and reports no directories. -/
theorem initialSyncRun_no_new_dirs (visits : List (FPath × FsEntry)) :
    ∀ st : InitState, (∀ pe ∈ visits, (lookupFs st.mirror pe.1).isSome) →
      (visits.foldl initialSyncStep st).dirCount = st.dirCount ∧
      (visits.foldl initialSyncStep st).addedDirs = st.addedDirs := by
  induction visits with
  | nil => intro st _; exact ⟨rfl, rfl⟩
  | cons e rest ih =>
    intro st h
    rw [List.foldl_cons]
    have hrest : ∀ pe ∈ rest, (lookupFs (initialSyncStep st e).mirror pe.1).isSome :=
      fun pe hpe => initialSyncStep_mono _ _ _ (h pe (List.mem_cons_of_mem _ hpe))
    have hstep : (initialSyncStep st e).dirCount = st.dirCount ∧
        (initialSyncStep st e).addedDirs = st.addedDirs := by
      obtain ⟨q, ent⟩ := e
      have he : (lookupFs st.mirror q).isSome := h _ (List.mem_cons_self _ _)
      cases ent with
      | dir mode =>
        obtain ⟨v, hv⟩ := Option.isSome_iff_exists.mp he
        simp [initialSyncStep, hv]
      | file content mode => simp [initialSyncStep]
    obtain ⟨ih1, ih2⟩ := ih _ hrest
    exact ⟨ih1.trans hstep.1, ih2.trans hstep.2⟩

/-- Every entry the pruned walk visits has a nonempty relative path. -/
theorem visitForest_path_ne_nil (inc exc : List Glob) :
    ∀ (base : FPath) (ts : List STree), ∀ pe ∈ visitForest inc exc base ts, pe.1 ≠ []
  | base, [] => by intro pe hpe; rw [visitForest] at hpe; cases hpe
  | base, t :: ts => by
    intro pe hpe
    rw [visitForest] at hpe
    rcases List.mem_append.mp hpe with hn | hf
    · cases t with
      | file name content mode =>
        rw [visitNode] at hn
        split at hn
        · rw [List.mem_singleton] at hn
          subst hn
          simp
        · cases hn
      | dir name mode children =>
        rw [visitNode] at hn
        split at hn
        · rcases List.mem_cons.mp hn with rfl | hmem
          · simp
          · exact visitForest_path_ne_nil inc exc (base ++ [name]) children pe hmem
        · cases hn
    · exact visitForest_path_ne_nil inc exc base ts pe hf

/-- C2 amended: a second `InitialSync` run over an unchanged source tree
creates and reports no directories, and `InitialSync` never reports
modifications or deletions; but it re-reports every in-scope file as added,
so the second run's file report equals the first run's instead of being
empty. -/
theorem initialSync_second_run (inc exc : List Glob) (ts : List STree) :
    (initialSync inc exc (initialSync inc exc [] ts).mirror ts).dirCount = 0 ∧
    (initialSync inc exc (initialSync inc exc [] ts).mirror ts).addedDirs = [] ∧
    (initialSync inc exc (initialSync inc exc [] ts).mirror ts).addedFiles
      = (initialSync inc exc [] ts).addedFiles ∧
    (initialSync inc exc (initialSync inc exc [] ts).mirror ts).fileCount
      = (initialSync inc exc [] ts).fileCount := by
  have hne : ∀ pe ∈ visitForest inc exc [] ts, pe.1 ≠ [] :=
    visitForest_path_ne_nil inc exc [] ts
  have hcover := initialSyncRun_covers (visitForest inc exc [] ts) hne
    { mirror := [], fileCount := 0, dirCount := 0, addedFiles := [], addedDirs := [] }
  have hd := initialSyncRun_no_new_dirs (visitForest inc exc [] ts)
    { mirror := (initialSync inc exc [] ts).mirror, fileCount := 0, dirCount := 0,
      addedFiles := [], addedDirs := [] } hcover
  have ha1 := initialSyncRun_addedFiles (visitForest inc exc [] ts)
    { mirror := [], fileCount := 0, dirCount := 0, addedFiles := [], addedDirs := [] }
  have ha2 := initialSyncRun_addedFiles (visitForest inc exc [] ts)
    { mirror := (initialSync inc exc [] ts).mirror, fileCount := 0, dirCount := 0,
      addedFiles := [], addedDirs := [] }
  have hc1 := initialSyncRun_fileCount (visitForest inc exc [] ts)
    { mirror := [], fileCount := 0, dirCount := 0, addedFiles := [], addedDirs := [] }
  have hc2 := initialSyncRun_fileCount (visitForest inc exc [] ts)
    { mirror := (initialSync inc exc [] ts).mirror, fileCount := 0, dirCount := 0,
      addedFiles := [], addedDirs := [] }
  exact ⟨hd.1, hd.2, ha2.trans ha1.symm, hc2.trans hc1.symm⟩
/-- Keys after `setAssoc` are among the new key and the old keys. -/
theorem mem_keys_setAssoc (k : GoStr) (v : Nat) :
    ∀ (st : List (GoStr × Nat)) (x : GoStr),
      x ∈ (setAssoc k v st).map Prod.fst → x = k ∨ x ∈ st.map Prod.fst := by
  intro st
  induction st with
  | nil =>
    intro x hx
    simp only [setAssoc, List.map_cons, List.map_nil, List.mem_cons,
      List.not_mem_nil, or_false] at hx
    exact Or.inl hx
  | cons e rest ih =>
    intro x hx
    by_cases he : e.1 = k
    · have hset : setAssoc k v (e :: rest) = (k, v) :: rest := by
        simp only [setAssoc]; rw [if_pos he]
      rw [hset, List.map_cons, List.mem_cons] at hx
      rcases hx with rfl | hx
      · exact Or.inl rfl
      · exact Or.inr (by rw [List.map_cons]; exact List.mem_cons_of_mem _ hx)
    · have hset : setAssoc k v (e :: rest) = e :: setAssoc k v rest := by
        simp only [setAssoc]; rw [if_neg he]
      rw [hset, List.map_cons, List.mem_cons] at hx
      rcases hx with rfl | hx
      · exact Or.inr (by rw [List.map_cons]; exact List.mem_cons_self _ _)
      · rcases ih x hx with h | h
        · exact Or.inl h
        · exact Or.inr (by rw [List.map_cons]; exact List.mem_cons_of_mem _ h)

/-- `setAssoc` keeps the keys duplicate-free. -/
theorem setAssoc_keys_nodup (k : GoStr) (v : Nat) :
    ∀ (st : List (GoStr × Nat)), (st.map Prod.fst).Nodup →
      ((setAssoc k v st).map Prod.fst).Nodup := by
  intro st
  induction st with
  | nil => intro _; simp [setAssoc]
  | cons e rest ih =>
    intro h
    rw [List.map_cons, List.nodup_cons] at h
    by_cases he : e.1 = k
    · have hset : setAssoc k v (e :: rest) = (k, v) :: rest := by
        simp only [setAssoc]; rw [if_pos he]
      rw [hset, List.map_cons, List.nodup_cons]
      exact ⟨he ▸ h.1, h.2⟩
    · have hset : setAssoc k v (e :: rest) = e :: setAssoc k v rest := by
        simp only [setAssoc]; rw [if_neg he]
      rw [hset, List.map_cons, List.nodup_cons]
      refine ⟨fun hmem => ?_, ih h.2⟩
      rcases mem_keys_setAssoc k v rest e.1 hmem with heq | hmem'
      · exact he heq
      · exact h.1 hmem'

/-- A key absent from an association list has no bindings. -/
theorem countKey_eq_zero (k : GoStr) :
    ∀ (st : List (GoStr × Nat)), k ∉ st.map Prod.fst → countKey k st = 0 := by
  intro st
  induction st with
  | nil => intro _; rfl
  | cons e rest ih =>
    intro h
    rw [List.map_cons] at h
    have h1 : ¬ e.1 = k := fun he => h (by simp [he])
    have h2 : k ∉ rest.map Prod.fst := fun hm => h (by simp [hm])
    have := ih h2
    simp only [countKey, List.filter_cons] at *
    simp [h1, this]

/-- With duplicate-free keys, `setAssoc` leaves exactly one binding for
the written key. -/
theorem countKey_setAssoc_self (k : GoStr) (v : Nat) :
    ∀ (st : List (GoStr × Nat)), (st.map Prod.fst).Nodup →
      countKey k (setAssoc k v st) = 1 := by
  intro st
  induction st with
  | nil => intro _; simp [setAssoc, countKey, List.filter_cons]
  | cons e rest ih =>
    intro h
    rw [List.map_cons, List.nodup_cons] at h
    by_cases he : e.1 = k
    · have hset : setAssoc k v (e :: rest) = (k, v) :: rest := by
        simp only [setAssoc]; rw [if_pos he]
      have hz : countKey k rest = 0 := countKey_eq_zero k rest (he ▸ h.1)
      rw [hset]
      simp only [countKey, List.filter_cons] at *
      simp [hz]
    · have hset : setAssoc k v (e :: rest) = e :: setAssoc k v rest := by
        simp only [setAssoc]; rw [if_neg he]
      have := ih h.2
      rw [hset]
      simp only [countKey, List.filter_cons] at *
      simp [he, this]

/-- The written binding is in the updated association list. -/
theorem mem_setAssoc_self (k : GoStr) (v : Nat) :
    ∀ (st : List (GoStr × Nat)), (k, v) ∈ setAssoc k v st := by
  intro st
  induction st with
  | nil => simp [setAssoc]
  | cons e rest ih =>
    by_cases he : e.1 = k
    · have hset : setAssoc k v (e :: rest) = (k, v) :: rest := by
        simp only [setAssoc]; rw [if_pos he]
      rw [hset]
      exact List.mem_cons_self _ _
    · have hset : setAssoc k v (e :: rest) = e :: setAssoc k v rest := by
        simp only [setAssoc]; rw [if_neg he]
      rw [hset]
      exact List.mem_cons_of_mem _ ih

/-- Folding a burst of updates for one key: the keys stay duplicate-free,
the key holds the time of the last event, and it holds exactly one
binding. -/
theorem foldl_setAssoc_facts (name : GoStr) :
    ∀ (evs : List (FsOp × Nat)) (hne : evs ≠ []) (st : List (GoStr × Nat)),
      (st.map Prod.fst).Nodup →
      ((evs.foldl (fun st e => setAssoc name e.2 st) st).map Prod.fst).Nodup ∧
      (name, (evs.getLast hne).2) ∈ evs.foldl (fun st e => setAssoc name e.2 st) st ∧
      countKey name (evs.foldl (fun st e => setAssoc name e.2 st) st) = 1
  | [], hne, _, _ => absurd rfl hne
  | [e], _, st, h => by
    rw [List.foldl_cons, List.foldl_nil, List.getLast_singleton]
    exact ⟨setAssoc_keys_nodup _ _ _ h, mem_setAssoc_self _ _ _,
      countKey_setAssoc_self _ _ _ h⟩
  | e :: e' :: rest, _, st, h => by
    rw [List.foldl_cons]
    have hlast : ((e :: e' :: rest).getLast (by simp)).2
        = ((e' :: rest).getLast (by simp)).2 := by
      rw [List.getLast_cons (by simp)]
    rw [hlast]
    exact foldl_setAssoc_facts name (e' :: rest) (by simp) _
      (setAssoc_keys_nodup _ _ _ h)

/-- Under an in-scope relative path and a qualifying operation, one watcher
event iteration is exactly a map update. -/
theorem handleEvent_eq_setAssoc (configDir : GoStr) (inc exc : List Glob)
    (st : List (GoStr × Nat)) (name rel : GoStr) (op : FsOp) (now : Nat)
    (hrel : goRel configDir name = some rel)
    (hincl : shouldInclude inc exc rel = true) (hop : qualifies op = true) :
    handleEvent configDir inc exc st name op now = setAssoc name now st := by
  simp [handleEvent, hrel, hincl, hop]

/-- A burst of qualifying events on one in-scope path is a fold of map
updates. -/
theorem foldl_handleEvent_eq (configDir : GoStr) (inc exc : List Glob)
    (name rel : GoStr) (hrel : goRel configDir name = some rel)
    (hincl : shouldInclude inc exc rel = true) :
    ∀ (evs : List (FsOp × Nat)), (∀ e ∈ evs, qualifies e.1 = true) →
      ∀ st, evs.foldl (fun st e => handleEvent configDir inc exc st name e.1 e.2) st
        = evs.foldl (fun st e => setAssoc name e.2 st) st := by
  intro evs
  induction evs with
  | nil => intro _ st; rfl
  | cons e rest ih =>
    intro hops st
    rw [List.foldl_cons, List.foldl_cons,
      handleEvent_eq_setAssoc configDir inc exc st name rel e.1 e.2 hrel hincl
        (hops e (List.mem_cons_self _ _))]
    exact ih (fun x hx => hops x (List.mem_cons_of_mem _ hx)) _

/-- The emitted batch of a tick holds no duplicates (`filesToSync` is a Go
set). -/
theorem tickFlush_batch_nodup (configDir : GoStr) (now : Nat) :
    ∀ (st : List (GoStr × Nat)), (tickFlush configDir st now).2.Nodup := by
  intro st
  induction st with
  | nil => simp [tickFlush]
  | cons e rest ih =>
    obtain ⟨name, t⟩ := e
    by_cases hage : 1000 < now - t
    · cases hrel : goRel configDir name with
      | some rel =>
        by_cases hmem : rel ∈ (tickFlush configDir rest now).2
        · simpa [tickFlush, hage, hrel, hmem] using ih
        · simpa [tickFlush, hage, hrel, hmem] using List.nodup_cons.mpr ⟨hmem, ih⟩
      | none => simpa [tickFlush, hage, hrel] using ih
    · simpa [tickFlush, hage] using ih

/-- A pending entry old enough to flush lands in the emitted batch. -/
theorem mem_tickFlush_batch (configDir : GoStr) (now : Nat) :
    ∀ (st : List (GoStr × Nat)) (name rel : GoStr) (t : Nat),
      (name, t) ∈ st → 1000 < now - t → goRel configDir name = some rel →
      rel ∈ (tickFlush configDir st now).2 := by
  intro st
  induction st with
  | nil => intro name rel t h; cases h
  | cons e rest ih =>
    intro name rel t hmem hage hrel
    rcases List.mem_cons.mp hmem with heq | hmem'
    · rw [← heq]
      by_cases hm : rel ∈ (tickFlush configDir rest now).2 <;>
        simp [tickFlush, hage, hrel, hm]
    · obtain ⟨n', t'⟩ := e
      have hrec := ih name rel t hmem' hage hrel
      by_cases hage' : 1000 < now - t'
      · cases hrel' : goRel configDir n' with
        | some rel' =>
          by_cases hm : rel' ∈ (tickFlush configDir rest now).2 <;>
            simp [tickFlush, hage', hrel', hm, hrec]
        | none => simpa [tickFlush, hage', hrel'] using hrec
      · simpa [tickFlush, hage'] using hrec

/-- A path absent from a batch occurs zero times. -/
theorem countPath_eq_zero (rel : GoStr) :
    ∀ (l : List GoStr), rel ∉ l → countPath rel l = 0 := by
  intro l
  induction l with
  | nil => intro _; rfl
  | cons x xs ih =>
    intro h
    have h1 : ¬ x = rel := fun he => h (by simp [he])
    have h2 : rel ∉ xs := fun hm => h (by simp [hm])
    have := ih h2
    simp only [countPath, List.filter_cons] at *
    simp [h1, this]

/-- In a duplicate-free batch a member path occurs exactly once. -/
theorem countPath_eq_one (rel : GoStr) :
    ∀ (l : List GoStr), l.Nodup → rel ∈ l → countPath rel l = 1 := by
  intro l
  induction l with
  | nil => intro _ h; cases h
  | cons x xs ih =>
    intro hnd hmem
    rw [List.nodup_cons] at hnd
    rcases List.mem_cons.mp hmem with rfl | hmem'
    · have hz : countPath rel xs = 0 := countPath_eq_zero rel xs hnd.1
      simp only [countPath, List.filter_cons] at *
      simp [hz]
    · have hx : ¬ x = rel := fun h => hnd.1 (h ▸ hmem')
      have := ih hnd.2 hmem'
      simp only [countPath, List.filter_cons] at *
      simp [hx, this]

/-- C5: a burst of `N ≥ 1` qualifying raw events on one in-scope absolute
path leaves exactly one binding for that path in the pending map, and a
tick that finds the entry older than the 1-second quiet window emits a
batch holding exactly one changed-path entry for the path. -/
theorem debounce_coalescing (configDir name rel : GoStr) (inc exc : List Glob)
    (st0 : List (GoStr × Nat)) (events : List (FsOp × Nat)) (tickNow : Nat)
    (hkeys : (st0.map Prod.fst).Nodup)
    (hne : events ≠ [])
    (hrel : goRel configDir name = some rel)
    (hincl : shouldInclude inc exc rel = true)
    (hops : ∀ e ∈ events, qualifies e.1 = true)
    (hquiet : 1000 < tickNow - (events.getLast hne).2) :
    countKey name
      (events.foldl (fun st e => handleEvent configDir inc exc st name e.1 e.2) st0) = 1 ∧
    countPath rel
      ((tickFlush configDir
        (events.foldl (fun st e => handleEvent configDir inc exc st name e.1 e.2) st0)
        tickNow).2) = 1 := by
  rw [foldl_handleEvent_eq configDir inc exc name rel hrel hincl events hops st0]
  obtain ⟨hnodup, hmem, hcount⟩ := foldl_setAssoc_facts name events hne st0 hkeys
  refine ⟨hcount, ?_⟩
  have hb := mem_tickFlush_batch configDir tickNow _ name rel _ hmem hquiet hrel
  exact countPath_eq_one rel _ (tickFlush_batch_nodup configDir tickNow _) hb

/-- C5 witness: two rapid writes to `c/f` (times 0 ms and 200 ms), tick at
2000 ms: one pending binding, one batch entry for the relative path `f`. -/
theorem debounce_coalescing_witness :
    countKey "c/f".data
      ([(FsOp.write, 0), (FsOp.write, 200)].foldl
        (fun st e => handleEvent "c".data [] [] st "c/f".data e.1 e.2) []) = 1 ∧
    countPath "f".data
      ((tickFlush "c".data
        ([(FsOp.write, 0), (FsOp.write, 200)].foldl
          (fun st e => handleEvent "c".data [] [] st "c/f".data e.1 e.2) [])
        2000).2) = 1 :=
  debounce_coalescing "c".data "c/f".data "f".data [] [] []
    [(FsOp.write, 0), (FsOp.write, 200)] 2000
    (by decide) (by decide) (by decide) (by decide) (by decide) (by decide)

/-- Unfolding `summaryString` one path at a time. -/
theorem summaryString_cons (p : GoStr) (ps : List GoStr) :
    summaryString (p :: ps) = p ++ [',', ' '] ++ summaryString ps := by
  simp [summaryString]

/-- A summary string is empty exactly for the empty path list. -/
theorem summaryString_eq_nil (ps : List GoStr) :
    summaryString ps = [] ↔ ps = [] := by
  cases ps with
  | nil => simp [summaryString]
  | cons p rest => simp [summaryString_cons]

/-- A nonempty summary string is the `", "`-join plus a trailing `", "`. -/
theorem summaryString_eq : ∀ (ps : List GoStr), ps ≠ [] →
    summaryString ps = joinCommaSpace ps ++ [',', ' ']
  | [], h => absurd rfl h
  | [p], _ => by simp [summaryString, joinCommaSpace]
  | p :: p' :: rest, _ => by
    rw [summaryString_cons, summaryString_eq (p' :: rest) (by simp),
      show joinCommaSpace (p :: p' :: rest)
        = p ++ [',', ' '] ++ joinCommaSpace (p' :: rest) from rfl]
    simp [List.append_assoc]

/-- Trimming the trailing `", "` of a nonempty summary yields the join. -/
theorem trimSuffix_summaryString (ps : List GoStr) (h : ps ≠ []) :
    trimSuffixCommaSpace (summaryString ps) = joinCommaSpace ps := by
  rw [summaryString_eq ps h, trimSuffixCommaSpace,
    if_pos (List.suffix_append _ _)]
  have hl : (joinCommaSpace ps ++ [',', ' ']).length - 2
      = (joinCommaSpace ps).length := by simp
  rw [hl]
  exact List.take_left _ _

/-- The two-element step equation of `splitCommaSpace`. -/
theorem splitCommaSpace_cons2 (c d : Char) (rest : GoStr) :
    splitCommaSpace (c :: d :: rest)
      = if c = ',' ∧ d = ' ' then [] :: splitCommaSpace rest
        else match splitCommaSpace (d :: rest) with
          | [] => [[c]]
          | q :: t => (c :: q) :: t := rfl

/-- Splitting directly at a separator. -/
theorem splitCommaSpace_sep (rest : GoStr) :
    splitCommaSpace (',' :: ' ' :: rest) = [] :: splitCommaSpace rest := by
  rw [splitCommaSpace_cons2, if_pos ⟨rfl, rfl⟩]

/-- A separator-free string splits to itself. -/
theorem splitCommaSpace_no_sep : ∀ (p : GoStr), ¬ [',', ' '] <:+: p →
    splitCommaSpace p = [p]
  | [], _ => rfl
  | [_], _ => rfl
  | c :: d :: rest, h => by
    have hcd : ¬(c = ',' ∧ d = ' ') := by
      rintro ⟨rfl, rfl⟩
      exact h ⟨[], rest, rfl⟩
    have hrec := splitCommaSpace_no_sep (d :: rest)
      (fun hinf => h (List.infix_cons hinf))
    rw [splitCommaSpace_cons2, if_neg hcd, hrec]

/-- Splitting a separator-free string directly followed by `", "`. -/
theorem splitCommaSpace_append : ∀ (p rest : GoStr), ¬ [',', ' '] <:+: p →
    splitCommaSpace (p ++ ',' :: ' ' :: rest) = p :: splitCommaSpace rest
  | [], rest, _ => by
    rw [List.nil_append, splitCommaSpace_sep]
  | [c], rest, _ => by
    have hc : ¬(c = ',' ∧ (',' : Char) = ' ') := fun hh => absurd hh.2 (by decide)
    rw [List.cons_append, List.nil_append, splitCommaSpace_cons2, if_neg hc,
      splitCommaSpace_sep]
  | c :: c' :: p', rest, h => by
    have hcc : ¬(c = ',' ∧ c' = ' ') := by
      rintro ⟨rfl, rfl⟩
      exact h ⟨[], p', rfl⟩
    have hrec := splitCommaSpace_append (c' :: p') rest
      (fun hinf => h (List.infix_cons hinf))
    rw [List.cons_append] at hrec
    rw [List.cons_append, List.cons_append, splitCommaSpace_cons2, if_neg hcc, hrec]

/-- Splitting inverts joining for separator-free paths. -/
theorem splitCommaSpace_joinCommaSpace : ∀ (ps : List GoStr), ps ≠ [] →
    (∀ p ∈ ps, ¬ [',', ' '] <:+: p) →
    splitCommaSpace (joinCommaSpace ps) = ps
  | [], h, _ => absurd rfl h
  | [p], _, hp => by
    rw [show joinCommaSpace [p] = p from rfl]
    exact splitCommaSpace_no_sep p (hp p (by simp))
  | p :: p' :: rest, _, hp => by
    have hjoin : joinCommaSpace (p :: p' :: rest)
        = p ++ ',' :: ' ' :: joinCommaSpace (p' :: rest) := by
      rw [show joinCommaSpace (p :: p' :: rest)
          = p ++ [',', ' '] ++ joinCommaSpace (p' :: rest) from rfl]
      simp
    rw [hjoin, splitCommaSpace_append p _ (hp p (by simp)),
      splitCommaSpace_joinCommaSpace (p' :: rest) (by simp)
        (fun x hx => hp x (List.mem_cons_of_mem _ hx))]

/-- On a kind's accumulated summary string, the per-kind body of
`buildCommitMessage` computes exactly the spec's description of its path
list. -/
theorem commitFilesText_summary (ps : List GoStr) (hps : ps ≠ [])
    (hp : ∀ p ∈ ps, ¬ [',', ' '] <:+: p) :
    commitFilesText (summaryString ps)
      = if 3 < ps.length then
          joinCommaSpace (ps.take 3) ++ " and ".data ++
            natStr (ps.length - 3) ++ " more".data
        else joinCommaSpace ps := by
  simp only [commitFilesText]
  rw [trimSuffix_summaryString ps hps, splitCommaSpace_joinCommaSpace ps hps hp]

/-- The parts list `buildCommitMessage` folds over summaries equals the
spec's per-kind groups. -/
theorem foldl_commitStep : ∀ (changes : List (GoStr × List GoStr)) (acc : List GoStr),
    (∀ kv ∈ changes, ∀ p ∈ kv.2, ¬ [',', ' '] <:+: p) →
    (changes.map (fun kv => (kv.1, summaryString kv.2))).foldl commitStep acc
      = acc ++ (changes.filter (fun kv => kv.2 ≠ [])).map specPart := by
  intro changes
  induction changes with
  | nil => intro acc _; simp
  | cons kv rest ih =>
    intro acc h
    obtain ⟨k, ps⟩ := kv
    rw [List.map_cons, List.foldl_cons]
    by_cases hps : ps = []
    · subst hps
      have hstep : commitStep acc (k, summaryString []) = acc := by
        simp [commitStep, summaryString]
      rw [hstep, ih acc (fun x hx => h x (List.mem_cons_of_mem _ hx))]
      simp [List.filter_cons]
    · have hsum : summaryString ps ≠ [] := fun hh => hps ((summaryString_eq_nil ps).mp hh)
      have hstep : commitStep acc (k, summaryString ps)
          = acc ++ [k ++ ": ".data ++ commitFilesText (summaryString ps)] := by
        simp [commitStep, hsum]
      rw [hstep, ih _ (fun x hx => h x (List.mem_cons_of_mem _ hx)),
        commitFilesText_summary ps hps (h (k, ps) (List.mem_cons_self _ _))]
      simp [List.filter_cons, hps, specPart, List.append_assoc]

/-- C8: `buildCommitMessage`, on summary strings accumulated from per-kind
path lists whose paths are free of the `", "` separator, produces exactly
the spec's message: per non-empty kind at most 3 paths listed literally
with `" and N more"` exactly when the kind has more than 3, kind groups
joined by `"; "`, and the generic count-based message when no kind has
classified paths. -/
theorem buildCommitMessage_refines (changes : List (GoStr × List GoStr)) (total : Nat)
    (h : ∀ kv ∈ changes, ∀ p ∈ kv.2, ¬ [',', ' '] <:+: p) :
    buildCommitMessage (changes.map (fun kv => (kv.1, summaryString kv.2))) total
      = commitMessageSpec changes total := by
  simp only [buildCommitMessage, commitMessageSpec]
  rw [foldl_commitStep changes [] h, List.nil_append]
  cases hp : (changes.filter (fun kv => kv.2 ≠ [])).map specPart with
  | nil => simp
  | cons x xs => simp

/-- C8 witness: one kind holding four paths — three are listed and
`" and 1 more"` appended — next to an empty kind that contributes
nothing. -/
theorem buildCommitMessage_refines_witness :
    buildCommitMessage
      ([("added".data, [['a'], ['b'], ['c'], ['d']]), ("deleted".data, [])].map
        (fun kv => (kv.1, summaryString kv.2))) 4
      = commitMessageSpec
        [("added".data, [['a'], ['b'], ['c'], ['d']]), ("deleted".data, [])] 4 :=
  buildCommitMessage_refines
    [("added".data, [['a'], ['b'], ['c'], ['d']]), ("deleted".data, [])] 4 (by decide)

end ConfigHandler
